import Mathlib

/-!
Verification of the validation-code generator (package validation, file
validation/generator.go, driver cmd/gen/main.go).

Strings are modelled as lists of characters so that the Go string
operations (strings.Split, strings.Join, strings.TrimPrefix,
strings.TrimSuffix, strings.Contains) become executable list functions
amenable to induction.  Go's abstract syntax tree of type expressions is
modelled by the inductive TypeExpr below; file-level declarations by
DeclM / GenDeclM / TypeSpecM / RawField.  The text/template payload
codeTemplate is translated into the render functions, and the behaviour
of the emitted Go code (validator, constructor) into the semantic
functions violations / isValidSem / newSem.
-/

/-- Strings modelled as lists of characters. -/
abbrev Str := List Char

/-- Embed a Lean string literal as a character list. -/
def str (s : String) : Str := s.data

/-- Go strings.Contains restricted to a non-empty needle: true iff sep
occurs as a contiguous substring of s.  (All uses in the generator pass a
non-empty separator.) -/
def hasInfix (sep : Str) : Str → Bool
  | [] => sep.isEmpty
  | c :: rest => sep.isPrefixOf (c :: rest) || hasInfix sep rest

/-- Go strings.Join: concatenate the parts with sep between consecutive
parts. -/
def joinStrs (sep : Str) : List Str → Str
  | [] => []
  | [x] => x
  | x :: xs => x ++ sep ++ joinStrs sep xs

/-- Worker for splitOn: scan s left to right; whenever the (non-empty)
separator s0 :: sTail is a prefix of the remaining input, emit the
accumulated chunk and continue after the separator. -/
def splitOnAux (s0 : Char) (sTail : Str) (s : Str) (acc : Str) : List Str :=
  match s with
  | [] => [acc.reverse]
  | c :: rest =>
    if (s0 :: sTail).isPrefixOf (c :: rest) then
      acc.reverse :: splitOnAux s0 sTail (rest.drop sTail.length) []
    else
      splitOnAux s0 sTail rest (c :: acc)
termination_by s.length
decreasing_by
  · simp [List.length_drop]; omega
  · simp

/-- Go strings.Split.  For the empty separator Go explodes the string
into one-character pieces (that case is never reached by the generator,
which always splits on a comma-space or a single space). -/
def splitOn (sep s : Str) : List Str :=
  match sep with
  | [] => s.map (fun c => [c])
  | s0 :: sTail => splitOnAux s0 sTail s []

/-- Go strings.TrimPrefix. -/
def trimPrefixStr (s pre : Str) : Str :=
  if pre.isPrefixOf s then s.drop pre.length else s

/-- Go strings.TrimSuffix. -/
def trimSuffixStr (s suf : Str) : Str :=
  if suf.isSuffixOf s then s.take (s.length - suf.length) else s

/-- Go ast.IsExported: the first character of the name is upper-case
(ASCII model of unicode.IsUpper; an empty name is not exported). -/
def isExported (s : Str) : Bool :=
  match s with
  | [] => false
  | c :: _ => c.isUpper

/-- The Go type-expression syntax tree reachable from a struct field or
array length, mirroring the ast.Expr kinds handled by extractType
(generator.go lines 189-230):
ident = ast.Ident; sel = ast.SelectorExpr (whose X the code asserts to be
an ast.Ident, hence a package name string here); star = ast.StarExpr;
array len elt = ast.ArrayType (len = none is a slice); mapT = ast.MapType;
iface = ast.InterfaceType; index = ast.IndexExpr; indexList =
ast.IndexListExpr; lit = ast.BasicLit carrying its literal text; other =
any remaining ast.Expr kind, carrying the text fmt.Sprintf produces for
its dynamic type under the %T verb. -/
inductive TypeExpr where
  | ident (name : Str)
  | sel (pkg : Str) (name : Str)
  | star (target : TypeExpr)
  | array (len : Option TypeExpr) (elt : TypeExpr)
  | mapT (key : TypeExpr) (value : TypeExpr)
  | iface
  | index (base : TypeExpr) (arg : TypeExpr)
  | indexList (base : TypeExpr) (indices : List TypeExpr)
  | lit (value : Str)
  | other (goKind : Str)

/-- extractArrayLen (generator.go lines 222-230): the literal text of an
ast.BasicLit length, and the empty string for every other expression
kind. -/
def extractArrayLen (expr : TypeExpr) : Str :=
  match expr with
  | .lit v => v
  | _ => []

mutual

/-- extractType (generator.go lines 189-220): render a type expression
as Go source text.  The default branch of the Go switch returns
fmt.Sprintf("%T", expr); for an ast.BasicLit that text is the constant
"*ast.BasicLit", and for the remaining unhandled kinds it is the kind
name carried by the other constructor. -/
def extractType (expr : TypeExpr) : Str :=
  match expr with
  | .ident name => name
  | .sel pkg name => pkg ++ str "." ++ name
  | .star target => str "*" ++ extractType target
  | .array none elt => str "[]" ++ extractType elt
  | .array (some len) elt => str "[" ++ extractArrayLen len ++ str "]" ++ extractType elt
  | .mapT key value => str "map[" ++ extractType key ++ str "]" ++ extractType value
  | .iface => str "interface\x7b\x7d"
  | .index base arg => extractType base ++ str "[" ++ extractType arg ++ str "]"
  | .indexList base indices =>
      extractType base ++ str "[" ++ joinStrs (str ", ") (extractTypeList indices) ++ str "]"
  | .lit _ => str "*ast.BasicLit"
  | .other goKind => goKind

/-- Renderings of the index list of an ast.IndexListExpr, in order
(the loop at generator.go lines 212-215). -/
def extractTypeList (es : List TypeExpr) : List Str :=
  match es with
  | [] => []
  | e :: rest => extractType e :: extractTypeList rest

end

/-- One entry of an ast.FieldList used as a type-parameter list: the
declared names and their shared constraint expression. -/
structure TypeParamField where
  names : List Str
  type : TypeExpr

/-- extractTypeParams (generator.go lines 177-187): render a
type-parameter list in declaration form, one "name constraint" entry per
declared name, joined by comma-space inside square brackets. -/
def extractTypeParams (typeParams : List TypeParamField) : Str :=
  str "[" ++
    joinStrs (str ", ")
      (typeParams.flatMap fun p => p.names.map fun n => n ++ str " " ++ extractType p.type) ++
  str "]"

/-- extractTypeParamNames (generator.go lines 276-293): project an
already-rendered declaration-form parameter list to its names: strip the
outer brackets, split on comma-space, keep the first space-separated
token of each piece, and re-bracket. -/
def extractTypeParamNames (typeParams : Str) : Str :=
  let inner := trimPrefixStr typeParams (str "[")
  let inner := trimSuffixStr inner (str "]")
  let params := splitOn (str ", ") inner
  let paramNames := params.map fun p => (splitOn (str " ") p).headD []
  str "[" ++ joinStrs (str ", ") paramNames ++ str "]"

/-- Information about a struct field recorded by the extractor
(generator.go lines 40-48). -/
structure FieldInfo where
  Name : Str
  «Type» : Str
  IsPointer : Bool
deriving DecidableEq

/-- Information about a struct for which validation code will be
generated (generator.go lines 26-38). -/
structure StructInfo where
  Name : Str
  Fields : List FieldInfo
  PackageName : Str
  TypeParams : Str
  IsGeneric : Bool
deriving DecidableEq

/-- One entry of a struct's ast.FieldList: the declared names (empty for
an embedded field) and the field's type expression. -/
structure RawField where
  names : List Str
  type : TypeExpr

/-- The switch on the field's type (generator.go lines 131-139): a
leading ast.StarExpr sets the pointer flag and renders only its target;
every other kind is rendered whole. -/
def fieldPointerAndType (t : TypeExpr) : Bool × Str :=
  match t with
  | .star x => (true, extractType x)
  | t => (false, extractType t)

/-- One iteration of the field loop (generator.go lines 115-146): skip
a field with no names (embedded), look only at the first declared name,
skip if it is unexported, otherwise record name, rendered type and
pointer flag. -/
def processField (f : RawField) : Option FieldInfo :=
  match f.names with
  | [] => none
  | fieldName :: _ =>
    if isExported fieldName then
      some { Name := fieldName,
             «Type» := (fieldPointerAndType f.type).2,
             IsPointer := (fieldPointerAndType f.type).1 }
    else
      none

/-- The definition body of an ast.TypeSpec: a struct type with its field
list, or any non-struct type. -/
inductive DeclBody where
  | structBody (fields : List RawField)
  | otherBody

/-- An ast.TypeSpec: declared name, type parameters (empty list models
both nil and empty TypeParams) and defining body. -/
structure TypeSpecM where
  name : Str
  typeParams : List TypeParamField
  body : DeclBody

/-- An ast.GenDecl with Tok == token.TYPE: attached doc-comment lines
(each including its comment markers) and the contained type specs. -/
structure GenDeclM where
  doc : List Str
  specs : List TypeSpecM

/-- A top-level declaration: a type declaration group, or any other
declaration (non-GenDecl, or a GenDecl whose token is not TYPE). -/
inductive DeclM where
  | typeDecl (d : GenDeclM)
  | otherDecl

/-- hasGenerateDirective (generator.go lines 232-245): true iff some
line of the doc comment contains the directive text as a substring; a
missing doc comment (empty list) yields false. -/
def hasGenerateDirective (doc : List Str) : Bool :=
  doc.any fun comment => hasInfix (str "//go:generate") comment

/-- The extraction traversal of Generate (generator.go lines 74-150):
visit every declaration, keep type declarations only, and inside them
every spec whose body is a struct and whose enclosing group's doc
comment carries the directive; build one StructInfo per such spec, in
order. -/
def collectStructs (pkg : Str) (decls : List DeclM) : List StructInfo :=
  decls.flatMap fun d =>
    match d with
    | .otherDecl => []
    | .typeDecl g =>
      g.specs.filterMap fun ts =>
        match ts.body with
        | .otherBody => none
        | .structBody fields =>
          if hasGenerateDirective g.doc then
            some { Name := ts.name,
                   PackageName := pkg,
                   Fields := fields.filterMap processField,
                   TypeParams :=
                     if ts.typeParams.isEmpty then str "" else extractTypeParams ts.typeParams,
                   IsGeneric := !ts.typeParams.isEmpty }
          else
            none

/-- The declaration-form generic suffix used by the template: the
rendered TypeParams when the struct is generic, nothing otherwise. -/
def genericDecl (s : StructInfo) : Str :=
  if s.IsGeneric then s.TypeParams else str ""

/-- The use-site generic suffix used by the template: the names-only
projection of TypeParams when the struct is generic, nothing
otherwise. -/
def genericUse (s : StructInfo) : Str :=
  if s.IsGeneric then extractTypeParamNames s.TypeParams else str ""

/-- One member line of the parameter aggregate (codeTemplate lines
307-309): newline, tab, field name, space, a star when the pointer flag
is set, then the recorded type. -/
def memberLine (f : FieldInfo) : Str :=
  str "\n\t" ++ f.Name ++ str " " ++ (if f.IsPointer then str "*" else str "") ++ f.«Type»

/-- The parameter aggregate type emitted for one struct (codeTemplate
lines 304-310). -/
def renderParamsType (s : StructInfo) : Str :=
  str "\n// " ++ s.Name ++ str "Params is the parameter struct for creating a " ++ s.Name ++
  str "\ntype " ++ s.Name ++ str "Params" ++ genericDecl s ++ str " struct \x7b" ++
  (s.Fields.map memberLine).flatten ++
  str "\n\x7d\n"

/-- One field-copy line of the constructor's composite literal
(codeTemplate lines 319-321). -/
def assignLine (f : FieldInfo) : Str :=
  str "\n\t\t" ++ f.Name ++ str ": params." ++ f.Name ++ str ","

/-- The constructor emitted for one struct (codeTemplate lines
312-323). -/
def renderNew (s : StructInfo) : Str :=
  str "\n// New" ++ s.Name ++ str " creates a new " ++ s.Name ++
  str "\nfunc New" ++ s.Name ++ genericDecl s ++
  str "(params " ++ s.Name ++ str "Params" ++ genericUse s ++ str ") (*" ++ s.Name ++
  genericUse s ++ str ", error) \x7b" ++
  str "\n\tif err := isValid" ++ s.Name ++ str "Params" ++ genericUse s ++
  str "(params); err != nil \x7b\n\t\treturn nil, err\n\t\x7d\n" ++
  str "\n\treturn &" ++ s.Name ++ genericUse s ++ str "\x7b" ++
  (s.Fields.map assignLine).flatten ++
  str "\n\t\x7d, nil\n\x7d\n"

/-- The nullness-check block emitted for one pointer field (codeTemplate
lines 330-332). -/
def checkBlock (name : Str) : Str :=
  str "\n\tif params." ++ name ++ str " == nil \x7b" ++
  str "\n\t\terrs = append(errs, errors.New(\"" ++ name ++ str " is required\"))" ++
  str "\n\t\x7d"

/-- The check blocks of the emitted validator, one per pointer field in
field order (codeTemplate lines 328-334: the field range with the
IsPointer guard). -/
def checkBlocks (fields : List FieldInfo) : List Str :=
  fields.filterMap fun f => if f.IsPointer then some (checkBlock f.Name) else none

/-- The validator emitted for one struct (codeTemplate lines
325-336). -/
def renderIsValid (s : StructInfo) : Str :=
  str "\n// isValid" ++ s.Name ++ str "Params validates the " ++ s.Name ++ str "Params" ++
  str "\nfunc isValid" ++ s.Name ++ str "Params" ++ genericDecl s ++
  str "(params " ++ s.Name ++ str "Params" ++ genericUse s ++ str ") error \x7b" ++
  str "\n\tvar errs []error" ++
  (checkBlocks s.Fields).flatten ++
  str "\n\treturn errors.Join(errs...)\n\x7d\n"

/-- The emitted triad for one struct: parameter aggregate, constructor,
validator, in template order. -/
def renderStructUnit (s : StructInfo) : Str :=
  renderParamsType s ++ renderNew s ++ renderIsValid s

/-- generateCode (generator.go lines 248-274 executing codeTemplate):
the fixed header, the triad of every struct in order, and the trailing
newlines left between the template's define blocks. -/
def renderCode (pkg : Str) (structs : List StructInfo) : Str :=
  str "// Code generated by validation-gen; DO NOT EDIT.\n\npackage " ++ pkg ++
  str "\n\nimport (\n\t\"errors\"\n)\n\n" ++
  (structs.map renderStructUnit).flatten ++
  str "\n\n\n\n\n\n\n"

/-- The failure taxonomy of Generate, in pipeline order (generator.go
lines 66-172). -/
inductive GenError where
  | parseError
  | noMatch
  | renderErr
  | formatErr
  | writeErr
deriving DecidableEq

/-- A parsed input file: its package name and top-level
declarations. -/
structure ParsedFile where
  pkgName : Str
  decls : List DeclM

/-- Generate after a successful parse (generator.go lines 71-174),
with go/format.Source abstracted as the fmtSrc argument and the
destination file's state threaded explicitly: returns the run's outcome
together with the destination content afterwards.  Zero extracted
structs fail with noMatch before any write; a formatting failure aborts
before any write; otherwise os.WriteFile (line 169) replaces the
destination unconditionally — the existing content is never consulted
and no force flag exists anywhere in the repository. -/
def generateRun (file : ParsedFile) (fmtSrc : Str → Except Unit Str)
    (existing : Option Str) : Except GenError Unit × Option Str :=
  let structs := collectStructs file.pkgName file.decls
  if structs.isEmpty then
    (.error .noMatch, existing)
  else
    match fmtSrc (renderCode file.pkgName structs) with
    | .error _ => (.error .formatErr, existing)
    | .ok formattedCode => (.ok (), some formattedCode)

/-- The violation list accumulated by the emitted validator (the errs
slice of codeTemplate lines 327-334): one entry naming each pointer
field whose aggregate member is nil, in field order; isNil gives the
nilness of each aggregate member. -/
def violations (fields : List FieldInfo) (isNil : Str → Bool) : List Str :=
  fields.foldl
    (fun errs f =>
      if f.IsPointer && isNil f.Name then errs ++ [f.Name ++ str " is required"] else errs)
    []

/-- The semantics of Go's errors.Join as used at codeTemplate line 335:
nil (none) when no error was accumulated, otherwise the joined non-nil
composite. -/
def joinErrors (errs : List Str) : Option (List Str) :=
  if errs.isEmpty then none else some errs

/-- The result of the emitted validator isValidStructParams: the joined
violations. -/
def isValidSem (fields : List FieldInfo) (isNil : Str → Bool) : Option (List Str) :=
  joinErrors (violations fields isNil)

/-- The behaviour of the emitted constructor NewStruct (codeTemplate
lines 312-323): run the validator; on failure return no instance and
the failure unchanged; on success return the instance built by copying
every aggregate member by name in field order, and no error.  vals
gives the value of each aggregate member. -/
def newSem {A : Type} (fields : List FieldInfo) (isNil : Str → Bool)
    (vals : Str → A) : Option (List (Str × A)) × Option (List Str) :=
  match isValidSem fields isNil with
  | some err => (none, some err)
  | none => (some (fields.map fun f => (f.Name, vals f.Name)), none)

/-- A concrete two-parameter generic parameter list, as in the
CacheService example: K comparable, V any. -/
def demoTypeParams : List TypeParamField :=
  [⟨[str "K"], .ident (str "comparable")⟩, ⟨[str "V"], .ident (str "any")⟩]

/-- A concrete field list: Client is an exported pointer field, Timeout
an exported non-pointer field (the spec's concrete scenario). -/
def demoFields : List FieldInfo :=
  [⟨str "Client", str "Client", true⟩, ⟨str "Timeout", str "int", false⟩]

/-- A multi-name field declaration: A, B *Client. -/
def demoMultiNameField : RawField :=
  ⟨[str "A", str "B"], .star (.ident (str "Client"))⟩

/-- A parsed file with one eligible struct holding a single exported
pointer field. -/
def demoEligibleFile : ParsedFile :=
  ⟨str "example",
   [.typeDecl
      ⟨[str "//go:generate go run github.com/strijmetkii/gen-isvalid/cmd/gen"],
       [⟨str "Service", [], .structBody [⟨[str "Client"], .star (.ident (str "Client"))⟩]⟩]⟩]⟩

/-- A parsed file whose only struct lacks the directive: zero eligible
declarations. -/
def demoUnmarkedFile : ParsedFile :=
  ⟨str "example",
   [.typeDecl
      ⟨[str "// Service is a service"],
       [⟨str "Service", [], .structBody [⟨[str "Client"], .star (.ident (str "Client"))⟩]⟩]⟩]⟩

/-- Following the spec's words for claim C3: the number of exported,
non-embedded fields a struct declares, counting every declared name of
every named field entry (an embedded field declares no name). -/
def specExportedFieldCount (fields : List RawField) : Nat :=
  ((fields.flatMap fun f => f.names).filter fun n => isExported n).length

theorem extractTypeList_eq_map (es : List TypeExpr) :
    extractTypeList es = es.map extractType := by
  induction es with
  | nil => rfl
  | cons e rest ih => simp [extractTypeList, ih]

/-- C5: the type-signature renderer extractType is total over all
type-expression node kinds (one equation per constructor below, jointly
covering the whole inductive) and renders each listed kind by its rule:
plain identifier unchanged; qualified name as pkg.Name; pointer as a
star plus the target rendering; slice as a bracket pair plus the element
rendering; fixed-size array as an open bracket, the literal length text
verbatim, a close bracket, then the element rendering; map as map-key-
value; the interface placeholder as the fixed literal; generic
instantiation as the base plus bracketed comma-joined arguments; and any
other node kind as a fallback debug string naming the node's kind. -/
theorem extractType_total_and_rules :
    (∀ n : Str, extractType (.ident n) = n)
  ∧ (∀ p n : Str, extractType (.sel p n) = p ++ str "." ++ n)
  ∧ (∀ t : TypeExpr, extractType (.star t) = str "*" ++ extractType t)
  ∧ (∀ e : TypeExpr, extractType (.array none e) = str "[]" ++ extractType e)
  ∧ (∀ (v : Str) (e : TypeExpr),
      extractType (.array (some (.lit v)) e) = str "[" ++ v ++ str "]" ++ extractType e)
  ∧ (∀ k v : TypeExpr,
      extractType (.mapT k v) = str "map[" ++ extractType k ++ str "]" ++ extractType v)
  ∧ extractType .iface = str "interface\x7b\x7d"
  ∧ (∀ b a : TypeExpr,
      extractType (.index b a) = extractType b ++ str "[" ++ extractType a ++ str "]")
  ∧ (∀ (b : TypeExpr) (args : List TypeExpr),
      extractType (.indexList b args)
        = extractType b ++ str "[" ++ joinStrs (str ", ") (args.map extractType) ++ str "]")
  ∧ (∀ k : Str, extractType (.other k) = k)
  ∧ (∀ v : Str, extractType (.lit v) = str "*ast.BasicLit") := by
  refine ⟨fun n => rfl, fun p n => rfl, fun t => rfl, fun e => rfl, fun v e => rfl,
    fun k v => rfl, rfl, fun b a => rfl, fun b args => ?_, fun k => rfl, fun v => rfl⟩
  simp [extractType, extractTypeList_eq_map]

/-- C7: the field extractor strips exactly one leading pointer level: a
leading star sets the pointer flag and records the rendering of the
target; a non-star type leaves the flag clear and is rendered whole; the
renderer itself prefixes a star for any nested pointer; hence a field of
a doubly-starred type yields the flag set with the singly-starred
recorded type. -/
theorem fieldPointerAndType_strips_one_level :
    (∀ t : TypeExpr, fieldPointerAndType (.star t) = (true, extractType t))
  ∧ (∀ t : TypeExpr, (∀ x, t ≠ .star x) → fieldPointerAndType t = (false, extractType t))
  ∧ (∀ t : TypeExpr, extractType (.star t) = str "*" ++ extractType t)
  ∧ fieldPointerAndType (.star (.star (.ident (str "T")))) = (true, str "*T") := by
  refine ⟨fun t => rfl, fun t h => ?_, fun t => rfl, by decide⟩
  cases t with
  | star x => exact absurd rfl (h x)
  | _ => rfl

/-- C7 witness: a plain identifier field is not flagged as a pointer and
keeps its own rendering. -/
theorem fieldPointerAndType_strips_one_level_witness :
    fieldPointerAndType (.ident (str "A")) = (false, str "A") :=
  (fieldPointerAndType_strips_one_level.2.1 (.ident (str "A")) (by simp)).trans (by decide)

/-- C10: a fixed-size array whose length expression is not a basic
literal (for example the named constant N) gets the empty string from
extractArrayLen, so extractType renders it exactly like the
corresponding slice, silently dropping the length. -/
theorem nonliteral_array_length_dropped :
    (∀ n : Str, extractArrayLen (.ident n) = [])
  ∧ (∀ l : TypeExpr, (∀ v, l ≠ .lit v) → extractArrayLen l = [])
  ∧ (∀ (n : Str) (e : TypeExpr),
      extractType (.array (some (.ident n)) e) = str "[]" ++ extractType e
      ∧ extractType (.array (some (.ident n)) e) = extractType (.array none e))
  ∧ extractType (.array (some (.ident (str "N"))) (.ident (str "int"))) = str "[]int" := by
  refine ⟨fun n => rfl, fun l h => ?_, fun n e => ⟨rfl, rfl⟩, by decide⟩
  cases l with
  | lit v => exact absurd rfl (h v)
  | _ => rfl

/-- C10 witness: the named-constant length is erased. -/
theorem nonliteral_array_length_dropped_witness :
    extractArrayLen (.ident (str "N")) = [] :=
  nonliteral_array_length_dropped.2.1 (.ident (str "N")) (by simp)

/-- C9: for a field declaration listing several names only the first is
examined: when it is exported exactly one record carrying that first
name is produced, the remaining names never influence the result, and
when the first name is unexported the whole declaration is skipped even
if a later name (such as B below) is exported. -/
theorem processField_first_name_only :
    (∀ (t : TypeExpr) (n1 : Str) (rest : List Str), isExported n1 = true →
      (processField ⟨n1 :: rest, t⟩).map (fun g => g.Name) = some n1)
  ∧ (∀ (t : TypeExpr) (n1 : Str) (rest rest' : List Str),
      processField ⟨n1 :: rest, t⟩ = processField ⟨n1 :: rest', t⟩)
  ∧ (∀ (t : TypeExpr) (n1 : Str) (rest : List Str), isExported n1 = false →
      processField ⟨n1 :: rest, t⟩ = none)
  ∧ (∀ f : RawField, (List.filterMap processField [f]).length ≤ 1)
  ∧ processField ⟨[str "a", str "B"], .star (.ident (str "Client"))⟩ = none
  ∧ isExported (str "B") = true := by
  refine ⟨fun t n1 rest h => ?_, fun t n1 rest rest' => rfl, fun t n1 rest h => ?_,
    fun f => ?_, by decide, by decide⟩
  · simp [processField, h]
  · simp [processField, h]
  · rcases h : processField f with _ | g <;> simp [List.filterMap, h]

/-- C9 witness: a declaration whose first name is exported yields the
record named by that first name, the second name dropped. -/
theorem processField_first_name_only_witness :
    (processField demoMultiNameField).map (fun g => g.Name) = some (str "A") :=
  processField_first_name_only.1 (.star (.ident (str "Client"))) (str "A") [str "B"] (by decide)

theorem violations_aux (isNil : Str → Bool) (fields : List FieldInfo) :
    ∀ acc : List Str,
      fields.foldl
        (fun errs f =>
          if f.IsPointer && isNil f.Name then errs ++ [f.Name ++ str " is required"] else errs)
        acc
      = acc ++ (fields.filter fun f => f.IsPointer && isNil f.Name).map
          (fun f => f.Name ++ str " is required") := by
  induction fields with
  | nil => simp
  | cons f fs ih =>
    intro acc
    rw [List.foldl_cons, List.filter_cons]
    cases hb : f.IsPointer && isNil f.Name <;>
      simp only [hb, if_true, if_false, Bool.false_eq_true, ite_true, ite_false, ih,
        List.map_cons, List.append_assoc, List.cons_append, List.nil_append]

theorem violations_eq (fields : List FieldInfo) (isNil : Str → Bool) :
    violations fields isNil
      = (fields.filter fun f => f.IsPointer && isNil f.Name).map
          (fun f => f.Name ++ str " is required") := by
  unfold violations
  simpa using violations_aux isNil fields []

theorem isValidSem_eq_none_iff (fields : List FieldInfo) (isNil : Str → Bool) :
    isValidSem fields isNil = none ↔ violations fields isNil = [] := by
  unfold isValidSem joinErrors
  rcases h : violations fields isNil with _ | ⟨v, vs⟩ <;> simp [h]

/-- C2: the emitted validator holds exactly one nullness-check block per
pointer field, in field order and naming that field, and none for the
other fields (first conjunct); it reports no failure exactly when no
pointer member is nil, so zero violations yield the absence of failure,
not an empty-but-present one (second conjunct); and the checks run
unconditionally: every violated pointer field contributes its own
failure, regardless of earlier violations (third conjunct). -/
theorem validator_checks_exactly_pointer_fields :
    ∀ (s : StructInfo) (isNil : Str → Bool),
      checkBlocks s.Fields
        = (s.Fields.filter fun f => f.IsPointer).map (fun f => checkBlock f.Name)
    ∧ (isValidSem s.Fields isNil = none
        ↔ ∀ f ∈ s.Fields, f.IsPointer = true → isNil f.Name = false)
    ∧ (∀ f ∈ s.Fields, f.IsPointer = true → isNil f.Name = true →
        (f.Name ++ str " is required") ∈ violations s.Fields isNil) := by
  intro s isNil
  refine ⟨?_, ?_, ?_⟩
  · induction s.Fields with
    | nil => rfl
    | cons f fs ih =>
      rw [List.filter_cons]
      cases hb : f.IsPointer <;>
        simp only [checkBlocks, List.filterMap_cons, hb, if_true, if_false,
          Bool.false_eq_true, ite_true, ite_false, List.map_cons] <;>
        simpa [checkBlocks] using ih
  · rw [isValidSem_eq_none_iff, violations_eq]
    simp only [List.map_eq_nil_iff, List.filter_eq_nil_iff, Bool.and_eq_true]
    constructor
    · intro h f hf hp
      have := h f hf
      simp [hp] at this
      exact this
    · intro h f hf hc
      have hfalse := h f hf hc.1
      rw [hc.2] at hfalse
      simp at hfalse
  · intro f hf hp hn
    rw [violations_eq]
    exact List.mem_map.mpr ⟨f, List.mem_filter.mpr ⟨hf, by simp [hp, hn]⟩, rfl⟩

/-- C2 witness: with both pointer members set, the demo validator
reports the absence of failure. -/
theorem validator_checks_exactly_pointer_fields_witness :
    isValidSem demoFields (fun _ => false) = none :=
  (validator_checks_exactly_pointer_fields
      ⟨str "Service", demoFields, str "example", str "", false⟩ (fun _ => false)).2.1.mpr
    (by decide)

/-- C8: the emitted constructor invokes the validator on its single
aggregate argument; when the validator reports no failure it returns the
newly built instance whose members are copied from the aggregate by name
in declaration order, together with no error; when the validator reports
a failure it returns no instance and that failure value unchanged. -/
theorem constructor_copies_or_propagates :
    ∀ {A : Type} (fields : List FieldInfo) (isNil : Str → Bool) (vals : Str → A),
      (isValidSem fields isNil = none →
        newSem fields isNil vals = (some (fields.map fun f => (f.Name, vals f.Name)), none))
    ∧ (∀ err, isValidSem fields isNil = some err →
        newSem fields isNil vals = (none, some err)) := by
  intro A fields isNil vals
  constructor
  · intro h
    unfold newSem
    rw [h]
  · intro err h
    unfold newSem
    rw [h]

/-- C8 witness: with every pointer member set, the demo constructor
returns the instance with Client and Timeout copied by name, in order,
and no error. -/
theorem constructor_copies_or_propagates_witness :
    newSem demoFields (fun _ => false) (fun n => n)
      = (some [(str "Client", str "Client"), (str "Timeout", str "Timeout")], none) :=
  ((constructor_copies_or_propagates demoFields (fun _ => false) (fun n => n)).1
    (by decide)).trans (by decide)

theorem processField_some_exported {f : RawField} {g : FieldInfo}
    (h : processField f = some g) : isExported g.Name = true := by
  unfold processField at h
  rcases hn : f.names with _ | ⟨n1, rest⟩ <;> rw [hn] at h
  · exact absurd h (by simp)
  · by_cases he : isExported n1 = true
    · simp only [he, if_true, ite_true, Option.some.injEq] at h
      rw [← h]
      exact he
    · simp [he] at h

/-- C3 counterexample: the eligible struct declared with the single
field entry A, B *Client has two exported, non-embedded fields, yet the
extractor records one field, so the emitted parameter aggregate has one
member, not two. -/
theorem params_member_count_counterexample :
    specExportedFieldCount [demoMultiNameField] = 2
    ∧ ((collectStructs (str "example")
          [.typeDecl ⟨[str "//go:generate go run gen"],
            [⟨str "Service", [], .structBody [demoMultiNameField]⟩]⟩]).map
        fun s => s.Fields.length) = [1] := by
  constructor <;> decide

/-- C3 amended: for a struct each of whose field declarations lists at
most one name, the members of the emitted parameter aggregate are
exactly the exported names of the non-embedded field declarations, in
declaration order (hence exactly N members for N exported non-embedded
fields); and in every case, multi-name declarations included, each
recorded member is exported, so no unexported or embedded field ever
appears in the aggregate. -/
theorem params_members_exported_in_order :
    ∀ fields : List RawField,
      ((∀ f ∈ fields, f.names.length ≤ 1) →
        (fields.filterMap processField).map (fun g => g.Name)
          = (fields.flatMap fun f => f.names).filter fun n => isExported n)
    ∧ (∀ g ∈ fields.filterMap processField, isExported g.Name = true) := by
  intro fields
  constructor
  · induction fields with
    | nil => intro _; rfl
    | cons f fs ih =>
      intro h
      have hf := h f (List.mem_cons_self f fs)
      have hfs : ∀ f ∈ fs, f.names.length ≤ 1 := fun g hg => h g (List.mem_cons_of_mem f hg)
      obtain ⟨ns, t⟩ := f
      rcases hn : ns with _ | ⟨n1, rest⟩ <;> subst hn
      · simpa [processField] using ih hfs
      · have hrest : rest = [] := by simpa using hf
        subst hrest
        by_cases he : isExported n1 = true
        · simp only [List.filterMap_cons, List.flatMap_cons, processField, he, if_true,
            ite_true, List.map_cons, List.singleton_append, List.filter_cons,
            List.cons_append, List.nil_append]
          rw [ih hfs]
        · have he' : isExported n1 = false := Bool.eq_false_iff.mpr he
          simp only [List.filterMap_cons, List.flatMap_cons, processField, he', if_false,
            Bool.false_eq_true, ite_false, List.singleton_append, List.filter_cons,
            List.cons_append, List.nil_append]
          simpa [he'] using ih hfs
  · intro g hg
    rcases List.mem_filterMap.mp hg with ⟨f, _, hf⟩
    exact processField_some_exported hf

/-- C3 amended witness: for single-name declarations the recorded member
names are the exported declared names in order (cfg is unexported and
dropped). -/
theorem params_members_exported_in_order_witness :
    (([⟨[str "Client"], .star (.ident (str "Client"))⟩,
       ⟨[str "cfg"], .star (.ident (str "Config"))⟩,
       ⟨[str "Timeout"], .ident (str "int")⟩] : List RawField).filterMap
        processField).map (fun g => g.Name) = [str "Client", str "Timeout"] :=
  ((params_members_exported_in_order _).1 (by decide)).trans (by decide)

/-- C4: when zero eligible (marked, struct-like) declarations are found,
Generate fails with the no-match error instead of succeeding with empty
output, and the destination file is neither created nor modified,
whatever formatter behaviour and prior destination state. -/
theorem generate_noMatch_on_zero_eligible :
    ∀ (file : ParsedFile) (fmtSrc : Str → Except Unit Str) (existing : Option Str),
      collectStructs file.pkgName file.decls = [] →
      generateRun file fmtSrc existing = (.error .noMatch, existing) := by
  intro file fmtSrc existing h
  unfold generateRun
  rw [h]
  rfl

/-- C4 witness: a file whose only struct lacks the directive fails with
the no-match error and leaves the absent destination absent. -/
theorem generate_noMatch_on_zero_eligible_witness :
    generateRun demoUnmarkedFile Except.ok none = (.error .noMatch, none) :=
  generate_noMatch_on_zero_eligible demoUnmarkedFile Except.ok none (by decide)

/-- C1 (bug exhibit): with the destination already holding prior
contents, a successful run replaces them — the write step calls
os.WriteFile unconditionally (and cmd/gen parses no force flag at all),
so the existing destination is never skipped as the README's
skip-if-exists feature and the spec promise. -/
theorem generate_overwrites_existing_destination :
    (generateRun demoEligibleFile Except.ok (some (str "prior contents"))).1 = Except.ok ()
    ∧ (generateRun demoEligibleFile Except.ok (some (str "prior contents"))).2
        ≠ some (str "prior contents") := by
  constructor
  · rfl
  · decide

theorem splitOnAux_of_not_infix (s0 : Char) (sTail : Str) :
    ∀ s acc : Str, hasInfix (s0 :: sTail) s = false →
      splitOnAux s0 sTail s acc = [acc.reverse ++ s] := by
  intro s
  induction s with
  | nil => intro acc _; simp [splitOnAux]
  | cons c rest ih =>
    intro acc h
    rw [hasInfix, Bool.or_eq_false_iff] at h
    rw [splitOnAux, if_neg (by simp [h.1]), ih (c :: acc) h.2]
    simp

theorem splitOnAux_commaSpace (tail : Str) :
    ∀ q acc : Str, hasInfix [',', ' '] q = false →
      splitOnAux ',' [' '] (q ++ ',' :: ' ' :: tail) acc
        = (acc.reverse ++ q) :: splitOnAux ',' [' '] tail [] := by
  intro q
  induction q with
  | nil =>
    intro acc _
    rw [List.nil_append, splitOnAux, if_pos (by simp [List.isPrefixOf])]
    simp
  | cons d q' ih =>
    intro acc h
    rw [hasInfix, Bool.or_eq_false_iff] at h
    have hcond : ([',', ' '].isPrefixOf (d :: (q' ++ ',' :: ' ' :: tail))) = false := by
      rcases hq : q' with _ | ⟨e, q''⟩
      · simp [List.isPrefixOf]
      · have := h.1
        rw [hq] at this
        simp only [List.isPrefixOf, Bool.and_eq_false_iff] at this ⊢
        rcases this with hd | he
        · exact Or.inl hd
        · rcases he with he | _ <;> simp_all [List.isPrefixOf]
    rw [List.cons_append, splitOnAux, if_neg (by simp [hcond]), ih (d :: acc) h.2]
    simp

theorem splitOnAux_space (tail : Str) :
    ∀ q acc : Str, (' ' ∉ q) →
      splitOnAux ' ' [] (q ++ ' ' :: tail) acc
        = (acc.reverse ++ q) :: splitOnAux ' ' [] tail [] := by
  intro q
  induction q with
  | nil =>
    intro acc _
    rw [List.nil_append, splitOnAux, if_pos (by simp [List.isPrefixOf])]
    simp
  | cons d q' ih =>
    intro acc h
    have hd : ¬ d = ' ' := fun hd => h (by simp [hd])
    rw [List.cons_append, splitOnAux,
      if_neg (by simp [List.isPrefixOf]; exact fun he => absurd he.symm hd),
      ih (d :: acc) (fun hm => h (List.mem_cons_of_mem d hm))]
    simp

theorem splitOn_join_commaSpace :
    ∀ parts : List Str, parts ≠ [] →
      (∀ q ∈ parts, hasInfix [',', ' '] q = false) →
      splitOn [',', ' '] (joinStrs [',', ' '] parts) = parts := by
  intro parts
  induction parts with
  | nil => intro h; exact absurd rfl h
  | cons q qs ih =>
    intro _ hfree
    rcases hqs : qs with _ | ⟨q', rest⟩
    · rw [joinStrs]
      exact splitOnAux_of_not_infix ',' [' '] q [] (hfree q (by simp))
    · rw [← hqs, joinStrs.eq_def]
      rw [hqs]
      show splitOn [',', ' '] (q ++ [',', ' '] ++ joinStrs [',', ' '] (q' :: rest))
        = q :: q' :: rest
      have hassoc : q ++ [',', ' '] ++ joinStrs [',', ' '] (q' :: rest)
          = q ++ ',' :: ' ' :: joinStrs [',', ' '] (q' :: rest) := by
        simp
      rw [hassoc]
      show splitOnAux ',' [' '] (q ++ ',' :: ' ' :: joinStrs [',', ' '] (q' :: rest)) []
        = q :: q' :: rest
      rw [splitOnAux_commaSpace _ q [] (hfree q (by simp))]
      have := ih (by simp [hqs]) (fun a ha => hfree a (by simp [hqs]; right; simpa [hqs] using ha))
      rw [hqs] at this
      simpa using this

theorem trimPrefixStr_append (pre s : Str) : trimPrefixStr (pre ++ s) pre = s := by
  unfold trimPrefixStr
  rw [if_pos (List.isPrefixOf_iff_prefix.mpr (List.prefix_append pre s))]
  exact List.drop_left pre s

theorem trimSuffixStr_append (s suf : Str) : trimSuffixStr (s ++ suf) suf = s := by
  unfold trimSuffixStr
  have hsuf : suf.isSuffixOf (s ++ suf) = true := by
    rw [List.isSuffixOf_iff_suffix]
    exact List.suffix_append s suf
  rw [if_pos hsuf, List.length_append, Nat.add_sub_cancel]
  exact List.take_left s suf

theorem firstToken_of_name (n c : Str) (hn : ' ' ∉ n) :
    (splitOn [' '] (n ++ ' ' :: c)).headD [] = n := by
  show (splitOnAux ' ' [] (n ++ ' ' :: c) []).headD [] = n
  rw [splitOnAux_space c n [] hn]
  simp

theorem part_not_infix (n c : Str) (hn : ',' ∉ n)
    (hc : hasInfix [',', ' '] c = false) :
    hasInfix [',', ' '] (n ++ ' ' :: c) = false := by
  induction n with
  | nil =>
    rw [List.nil_append, hasInfix, Bool.or_eq_false_iff]
    exact ⟨by simp [List.isPrefixOf], hc⟩
  | cons d n' ih =>
    have hd : ¬ d = ',' := fun hd => hn (by simp [hd])
    rw [List.cons_append, hasInfix, Bool.or_eq_false_iff]
    refine ⟨by simp [List.isPrefixOf]; exact fun he => absurd he.symm hd,
      ih (fun hm => hn (List.mem_cons_of_mem d hm))⟩

theorem map_firstToken_parts :
    ∀ tps : List TypeParamField, (∀ p ∈ tps, ∀ n ∈ p.names, ' ' ∉ n) →
      (tps.flatMap fun p => p.names.map fun n => n ++ str " " ++ extractType p.type).map
          (fun q => (splitOn (str " ") q).headD [])
        = tps.flatMap fun p => p.names := by
  intro tps
  induction tps with
  | nil => intro _; rfl
  | cons p tps' ih =>
    intro h
    rw [List.flatMap_cons, List.flatMap_cons, List.map_append, List.map_map]
    have hhead : p.names.map ((fun q => (splitOn (str " ") q).headD []) ∘
        fun n => n ++ str " " ++ extractType p.type) = p.names := by
      have := List.map_congr_left (l := p.names)
        (f := (fun q => (splitOn (str " ") q).headD []) ∘
          fun n => n ++ str " " ++ extractType p.type) (g := id) ?_
      · simpa using this
      · intro n hn
        show (splitOn (str " ") (n ++ str " " ++ extractType p.type)).headD [] = n
        have hshape : n ++ str " " ++ extractType p.type = n ++ ' ' :: extractType p.type := by
          simp [str]
        rw [hshape]
        exact firstToken_of_name n (extractType p.type) (h p (by simp) n hn)
    rw [hhead, ih (fun g hg n hn => h g (by simp [hg]) n hn)]

/-- C6: whenever the rendered constraint texts contain no occurrence of
the comma-space parameter delimiter (and, as in any legal source file,
the parameter names are identifiers, so contain neither a space nor a
comma), projecting the declaration-form rendering through
extractTypeParamNames yields exactly the bracketed, comma-joined
parameter names, in the same relative order as the declaration form. -/
theorem typeParamNames_projection (tps : List TypeParamField)
    (hn : ∀ p ∈ tps, ∀ n ∈ p.names, ' ' ∉ n ∧ ',' ∉ n)
    (hc : ∀ p ∈ tps, hasInfix (str ", ") (extractType p.type) = false) :
    extractTypeParamNames (extractTypeParams tps)
      = str "[" ++ joinStrs (str ", ") (tps.flatMap fun p => p.names) ++ str "]" := by
  have hinner :
      trimSuffixStr
        (trimPrefixStr (extractTypeParams tps) (str "["))
        (str "]")
      = joinStrs (str ", ")
          (tps.flatMap fun p => p.names.map fun n => n ++ str " " ++ extractType p.type) := by
    unfold extractTypeParams
    rw [List.append_assoc, trimPrefixStr_append, trimSuffixStr_append]
  show str "[" ++
      joinStrs (str ", ")
        ((splitOn (str ", ")
            (trimSuffixStr (trimPrefixStr (extractTypeParams tps) (str "[")) (str "]"))).map
          fun p => (splitOn (str " ") p).headD []) ++
      str "]" = _
  rw [hinner]
  rcases hp : tps.flatMap fun p => p.names.map fun n => n ++ str " " ++ extractType p.type
    with _ | ⟨q, qs⟩
  · have hnames : (tps.flatMap fun p => p.names) = [] := by
      rw [List.flatMap_eq_nil_iff] at hp ⊢
      intro p hmem
      have := hp p hmem
      rwa [List.map_eq_nil_iff] at this
    rw [hnames]
    have h1 : splitOn (str ", ") (joinStrs (str ", ") ([] : List Str)) = [[]] := by
      show splitOnAux ',' [' '] [] [] = [[]]
      simp [splitOnAux]
    have h2 : (splitOn (str " ") ([] : Str)).head?.getD [] = ([] : Str) := by
      show (splitOnAux ' ' [] [] []).head?.getD [] = []
      simp [splitOnAux]
    rw [h1]
    simp [h2, joinStrs]
  · have hfree : ∀ q' ∈ (tps.flatMap fun p =>
        p.names.map fun n => n ++ str " " ++ extractType p.type),
        hasInfix [',', ' '] q' = false := by
      intro q' hq'
      rcases List.mem_flatMap.mp hq' with ⟨p, hpmem, hq''⟩
      rcases List.mem_map.mp hq'' with ⟨n, hnmem, rfl⟩
      have hshape : n ++ str " " ++ extractType p.type = n ++ ' ' :: extractType p.type := by
        simp [str]
      rw [hshape]
      exact part_not_infix n (extractType p.type) ((hn p hpmem n hnmem).2)
        (hc p hpmem)
    have hsplit : splitOn (str ", ")
        (joinStrs (str ", ") (q :: qs)) = q :: qs := by
      have := splitOn_join_commaSpace (q :: qs) (by simp) (by rw [← hp]; exact hfree)
      exact this
    rw [← hp, hp, hsplit, ← hp, map_firstToken_parts tps (fun p hpm n hnm => (hn p hpm n hnm).1)]

/-- C6 witness: the two-parameter list K comparable, V any projects to
the names-only form with the same names in the same order. -/
theorem typeParamNames_projection_witness :
    extractTypeParamNames (extractTypeParams demoTypeParams) = str "[K, V]" :=
  (typeParamNames_projection demoTypeParams (by decide) (by decide)).trans (by decide)
